import Mathlib

/-!
# rancher-cron: the discovery tick of `main.go`

A shallow embedding of `discoverCronContainers`, `clearCron` and
`getCronFunction` (src/main.go).  The three functions work on process-wide
state (`s.Schedules`, the cron engine `cr`, the cattle client `c`); here that
state is passed explicitly.

* `Schedule` objects live in a heap and are referred to by pointer, because
  the map `*s.Schedules` and the map returned by `s.GetCronSchedules()` hold
  `*model.Schedule` values and may share them.
* A Go map is a list of `(key, pointer)` pairs.  The order of the list is the
  order in which `range` produces the entries; Go leaves that order
  unspecified, and every theorem below holds for every order.
* Every call that leaves `main.go` (logrus, `cr`, `c`) is appended to a
  trace.  What the collaborators answer is given by an `Env`, whose answers
  may depend on everything that happened before (the trace so far).
* The values of the two maps are taken to be non-nil pointers; the pointer
  that `s.GetCronSchedules()` returns and the container that
  `c.StartContainerByID` returns may be nil.
-/

namespace RancherCron

/-- A pointer to a `model.Schedule` object. -/
abbrev Ptr := Nat

/-- Modelled from the spec: the declaration of `model.Schedule` is not part of
the sources at hand.  The fields are the four that `main.go` reads or writes:
`CronID` (a `cron.EntryID`, a Go `int`, compared with `> 0`), `CronExpression`,
`ContainerUUID` and `ToCleanup`. -/
structure Schedule where
  CronID : Int
  CronExpression : String
  ContainerUUID : String
  ToCleanup : Bool
deriving DecidableEq, Repr

/-- Modelled from the spec: the container record of the cattle client is not
part of the sources at hand.  The fields are the three that `getCronFunction`
reads: `Id`, `Name` and `Uuid`. -/
structure Container where
  Id : String
  Name : String
  Uuid : String
deriving DecidableEq, Repr

/-- The constant `cronLabelName` of `main.go`. -/
def cronLabelName : String := "com.socialengine.rancher-cron.schedule"

/-- The logrus level of a log call. -/
inductive Level where
  | Debug
  | Info
  | Error
deriving DecidableEq, Repr

/-- One call that leaves `main.go`.  In `Remove` and `AddFunc` the first field
records for which `Schedule` object the call was issued; it is bookkeeping of
the model and not an argument of the Go call.  The callback handed to
`cr.AddFunc` is `none` for a nil func and `some container` for the closure
built by `getCronFunction`, which captures the resolved container. -/
inductive Event where
  | Log (level : Level) (msg : String) (fields : List (String × String))
  | GetContainerByUUID (uuid : String) (found : Option Container)
  | StartContainerByID (id : String) (container : Option Container) (err : Bool)
  | Remove (schedule : Ptr) (id : Int)
  | AddFunc (schedule : Ptr) (spec : String) (cmd : Option Container) (entryID : Int) (err : Bool)
deriving DecidableEq, Repr

/-- The state the functions of `main.go` work on: the `Schedule` objects, the
map `*s.Schedules` (the registry) and the calls issued so far. -/
structure World where
  heap : Ptr → Schedule
  Schedules : List (String × Ptr)
  trace : List Event

/-- The map a non-nil `sched` points to: either the very map `*s.Schedules`
(deleting from the registry then also deletes from `schedules`), or another
map. -/
inductive SchedulesRef where
  | registry
  | other (entries : List (String × Ptr))
deriving DecidableEq, Repr

/-- What `s.GetCronSchedules()` leaves behind when it returns: the `Schedule`
objects and the registry as they are then, the returned pointer (`none` is
nil) and whether the returned error is non-nil. -/
structure FetchResult where
  heap : Ptr → Schedule
  Schedules : List (String × Ptr)
  sched : Option SchedulesRef
  err : Bool

/-- The collaborators of `main.go`, none of which is part of the sources at
hand.  `GetContainerByUUID` answers `none` for a non-nil error and
`some container` for a nil error (a nil error is taken to come with a non-nil
container).  `AddFunc` answers the entry ID and whether the error is non-nil.
`StartContainerByID` answers the returned pointer and whether the error is
non-nil.  `cr.Remove` returns nothing and so needs no answer. -/
structure Env where
  GetCronSchedules : World → FetchResult
  GetContainerByUUID : List Event → String → Option Container
  AddFunc : List Event → String → Option Container → Int × Bool
  StartContainerByID : List Event → String → Option Container × Bool

/-- A run-time panic of the Go program. -/
inductive Panic where
  | nilDereference
deriving DecidableEq, Repr

/-- Assignment through a pointer: `heap[p] := v`. -/
def store (heap : Ptr → Schedule) (p : Ptr) (v : Schedule) : Ptr → Schedule :=
  fun q => if q = p then v else heap q

/-- The Go builtin `delete(m, key)`. -/
def delete (m : List (String × Ptr)) (key : String) : List (String × Ptr) :=
  m.filter (fun e => e.1 ≠ key)

/-- The body of the `range` loop of `clearCron` (lines 128-140), run over the
entries of `*s.Schedules`.  The body deletes only the key it is visiting, so
`range` produces every entry of the map once.  The counter is `cleanedJobs`. -/
def clearCronLoop : List (String × Ptr) → World → Nat → World × Nat
  | [], w, cleanedJobs => (w, cleanedJobs)
  | (key, p) :: rest, w, cleanedJobs =>
    let schedule := w.heap p
    if !schedule.ToCleanup then
      clearCronLoop rest w cleanedJobs
    else
      clearCronLoop rest
        { w with
          Schedules := delete w.Schedules key
          trace := w.trace ++
            [Event.Remove p schedule.CronID,
             Event.Log Level.Info "deleted container from cron"
               [("schedule", schedule.CronExpression),
                ("containerUUID", schedule.ContainerUUID)]] }
        (cleanedJobs + 1)

/-- The function `clearCron` of `main.go` (lines 126-144). -/
def clearCron (w : World) : World :=
  let r := clearCronLoop w.Schedules w 0
  if r.2 > 0 then
    { r.1 with
      trace := r.1.trace ++
        [Event.Log Level.Debug
          ("removed " ++ toString r.2 ++ " cron entries, and their schedule") []] }
  else r.1

/-- The function `getCronFunction` of `main.go` (lines 146-172) up to the
point where it returns: the returned func (`none` is nil, which comes with a
non-nil error; `some container` is the closure over `container`) and the
trace afterwards. -/
def getCronFunction (env : Env) (schedule : Schedule) (trace : List Event) :
    Option Container × List Event :=
  match env.GetContainerByUUID trace schedule.ContainerUUID with
  | none => (none, trace ++ [Event.GetContainerByUUID schedule.ContainerUUID none])
  | some container =>
    (some container,
     trace ++
       [Event.GetContainerByUUID schedule.ContainerUUID (some container),
        Event.Log Level.Info "adding container to cron"
          [("schedule", schedule.CronExpression),
           ("containerName", container.Name),
           ("containerUUID", schedule.ContainerUUID)]])

/-- The closure returned by `getCronFunction` (lines 158-171), called with the
container it captured.  Inside the closure `container` is redeclared as the
result of `c.StartContainerByID`, so both branches read the fields of the
returned pointer; reading them through a nil pointer panics. -/
def cronFunction (env : Env) (captured : Container) (w : World) : Except Panic World :=
  let r := env.StartContainerByID w.trace captured.Id
  let trace := w.trace ++ [Event.StartContainerByID captured.Id r.1 r.2]
  match r.1 with
  | none => Except.error Panic.nilDereference
  | some container =>
    if r.2 then
      Except.ok { w with
        trace := trace ++
          [Event.Log Level.Error "Failed to start container: %v"
            [("containerId", container.Id), ("containerUuid", container.Uuid)]] }
    else
      Except.ok { w with
        trace := trace ++
          [Event.Log Level.Debug ("started container: " ++ container.Name)
            [("containerId", container.Id), ("containerUuid", container.Uuid)]] }

/-- The body of the loop of `discoverCronContainers` below the `continue`
(lines 113-122) for the schedule behind `p`: resolve the callback, log when
that failed, register whatever came back and store the returned entry ID. -/
def registerSchedule (env : Env) (p : Ptr) (w : World) : World :=
  let schedule := w.heap p
  let r := getCronFunction env schedule w.trace
  let trace1 :=
    if r.1.isNone then
      r.2 ++ [Event.Log Level.Error "could not find container"
                [("container", schedule.ContainerUUID)]]
    else r.2
  let a := env.AddFunc trace1 schedule.CronExpression r.1
  { w with
    heap := store w.heap p { schedule with CronID := a.1 }
    trace := trace1 ++ [Event.AddFunc p schedule.CronExpression r.1 a.1 a.2] }

/-- The `range` loop of `discoverCronContainers` (lines 108-123) over the
entries of `schedules`. -/
def discoverLoop (env : Env) : List (String × Ptr) → World → World
  | [], w => w
  | (_, p) :: rest, w =>
    if (w.heap p).CronID > 0 then
      discoverLoop env rest w
    else
      discoverLoop env rest (registerSchedule env p w)

/-- The entries of the map `schedules` (the copy of `*sched`) in a state. -/
def entries (ref : SchedulesRef) (w : World) : List (String × Ptr) :=
  match ref with
  | SchedulesRef.registry => w.Schedules
  | SchedulesRef.other es => es

/-- The state in which `s.GetCronSchedules()` returns. -/
def fetched (env : Env) (w : World) : World :=
  { heap := (env.GetCronSchedules w).heap
    Schedules := (env.GetCronSchedules w).Schedules
    trace := w.trace }

/-- The log call of line 96. -/
def fetchErrorLine : Event :=
  Event.Log Level.Error "Could not retrieve cron schedules from rancher metadata service" []

/-- The log call of line 100. -/
def noSchedulesLine : Event :=
  Event.Log Level.Error ("Could not find any active containers with label " ++ cronLabelName) []

/-- The two checks of `discoverCronContainers` that only log (lines 95-101):
a non-nil error and an empty `schedules`.  Neither returns. -/
def discoverChecks (ref : SchedulesRef) (err : Bool) (w : World) : World :=
  let w1 : World := if err then { w with trace := w.trace ++ [fetchErrorLine] } else w
  if (entries ref w1).length = 0 then { w1 with trace := w1.trace ++ [noSchedulesLine] } else w1

/-- The log call of line 106. -/
def discoveryLine (n : Nat) : Event :=
  Event.Log Level.Debug ("running discovery, found " ++ toString n ++ " schedule containers") []

/-- The state in which the loop of `discoverCronContainers` starts
(lines 95-106): after the two checks, `clearCron()` and the debug line. -/
def discoverSetup (ref : SchedulesRef) (err : Bool) (w : World) : World :=
  let w3 := clearCron (discoverChecks ref err w)
  { w3 with trace := w3.trace ++ [discoveryLine (entries ref w3).length] }

/-- The part of `discoverCronContainers` after `schedules := *sched`
(lines 95-123), for a non-nil `sched`.  The loop ranges over the map as it is
after `clearCron()`. -/
def discoverBody (env : Env) (ref : SchedulesRef) (err : Bool) (w : World) : World :=
  discoverLoop env (entries ref (discoverSetup ref err w)) (discoverSetup ref err w)

/-- The function `discoverCronContainers` of `main.go` (lines 91-124).  The
pointer returned by `s.GetCronSchedules()` is dereferenced on line 93, before
the error is looked at. -/
def discoverCronContainers (env : Env) (w : World) : Except Panic World :=
  match (env.GetCronSchedules w).sched with
  | none => Except.error Panic.nilDereference
  | some ref => Except.ok (discoverBody env ref (env.GetCronSchedules w).err (fetched env w))

/-- The entries of the map behind the pointer `s.GetCronSchedules()` returned,
as they are when it returns (none for a nil pointer). -/
def fetchedEntries (env : Env) (w : World) : List (String × Ptr) :=
  match (env.GetCronSchedules w).sched with
  | none => []
  | some ref => entries ref (fetched env w)

/-- The `cr.Remove` calls of a trace: for which schedule, with which handle. -/
def removeCalls : List Event → List (Ptr × Int)
  | [] => []
  | Event.Remove p id :: rest => (p, id) :: removeCalls rest
  | _ :: rest => removeCalls rest

/-- One `cr.AddFunc` call: for which schedule it was issued, the cron
expression and the callback it was given, and the entry ID and error flag
that came back. -/
structure AddFuncCall where
  schedule : Ptr
  spec : String
  cmd : Option Container
  entryID : Int
  err : Bool
deriving DecidableEq, Repr

/-- The `cr.AddFunc` calls of a trace. -/
def addFuncCalls : List Event → List AddFuncCall
  | [] => []
  | Event.AddFunc p spec cmd id err :: rest =>
    { schedule := p, spec := spec, cmd := cmd, entryID := id, err := err } :: addFuncCalls rest
  | _ :: rest => addFuncCalls rest

/-- What `AddFunc` of gopkg.in/robfig/cron.v2 promises about entry IDs: a
call that fails returns the ID 0, and a call that succeeds returns a positive
ID larger than every ID an earlier call returned (the engine counts its
entries up). -/
def CronEngine (env : Env) : Prop :=
  ∀ (trace : List Event) (spec : String) (cmd : Option Container),
    ((env.AddFunc trace spec cmd).2 = true → (env.AddFunc trace spec cmd).1 = 0) ∧
    ((env.AddFunc trace spec cmd).2 = false →
      0 < (env.AddFunc trace spec cmd).1 ∧
      ∀ c ∈ addFuncCalls trace, c.entryID < (env.AddFunc trace spec cmd).1)

/-- The calls issued between an earlier state and a later one. -/
def issued (w w' : World) : List Event :=
  w'.trace.drop w.trace.length

/-- The number of Error-level log lines of a trace. -/
def errorLogs : List Event → Nat
  | [] => 0
  | Event.Log Level.Error _ _ :: rest => errorLogs rest + 1
  | _ :: rest => errorLogs rest

/-- The calls the loop of `clearCron` issues over the given entries. -/
def clearCronEvents (heap : Ptr → Schedule) : List (String × Ptr) → List Event
  | [] => []
  | (_, p) :: rest =>
    if (heap p).ToCleanup then
      Event.Remove p (heap p).CronID ::
        Event.Log Level.Info "deleted container from cron"
          [("schedule", (heap p).CronExpression),
           ("containerUUID", (heap p).ContainerUUID)] ::
        clearCronEvents heap rest
    else clearCronEvents heap rest

/-- The calls `clearCron` issues: those of its loop and, when something was
removed, the closing debug line. -/
def clearCronTrace (w : World) : List Event :=
  clearCronEvents w.heap w.Schedules ++
    (if (w.Schedules.filter (fun x => (w.heap x.2).ToCleanup)).length > 0 then
      [Event.Log Level.Debug
        ("removed " ++ toString (w.Schedules.filter (fun x => (w.heap x.2).ToCleanup)).length ++
          " cron entries, and their schedule") []]
    else [])

/-! ## A concrete engine and concrete states -/

/-- The largest entry ID an `cr.AddFunc` call of the trace returned, 0 when
there is none. -/
def maxEntryID (trace : List Event) : Int :=
  ((addFuncCalls trace).map (fun c => c.entryID)).foldr max 0

/-- A collaborator set for the examples.  `GetCronSchedules` changes nothing
and returns the given pointer and error flag; `GetContainerByUUID` answers by
`resolve`; `AddFunc` rejects the expressions `parses` rejects with ID 0 and
otherwise hands out the next ID; `StartContainerByID` answers by `start`. -/
def sampleEnv (sched : Option SchedulesRef) (err : Bool) (resolve : String → Option Container)
    (parses : String → Bool) (start : String → Option Container × Bool) : Env :=
  { GetCronSchedules := fun w =>
      { heap := w.heap, Schedules := w.Schedules, sched := sched, err := err }
    GetContainerByUUID := fun _ uuid => resolve uuid
    AddFunc := fun trace spec _ => if parses spec then (maxEntryID trace + 1, false) else (0, true)
    StartContainerByID := fun _ id => start id }

/-- A resolver that finds every container. -/
def resolveAll (uuid : String) : Option Container :=
  some { Id := "1i7", Name := "worker", Uuid := uuid }

/-- A resolver that finds no container. -/
def resolveNone (_uuid : String) : Option Container := none

/-- A start call that succeeds. -/
def startOk (id : String) : Option Container × Bool :=
  (some { Id := id, Name := "worker", Uuid := "b" }, false)

/-- A start call that fails: a nil container and a non-nil error. -/
def startFails (_id : String) : Option Container × Bool := (none, true)

/-- Three schedules: `a` (pointer 0) is bound to handle 7 and flagged for
cleanup, `b` (pointer 1) is unbound, `c` (pointer 2) is bound to handle 3. -/
def sampleHeap : Ptr → Schedule := fun p =>
  if p = 0 then
    { CronID := 7, CronExpression := "@hourly", ContainerUUID := "a", ToCleanup := true }
  else if p = 1 then
    { CronID := 0, CronExpression := "@daily", ContainerUUID := "b", ToCleanup := false }
  else
    { CronID := 3, CronExpression := "@weekly", ContainerUUID := "c", ToCleanup := false }

/-- The registry holds the three schedules of `sampleHeap`; the engine was
asked to register `c` and `a` before. -/
def sampleWorld : World :=
  { heap := sampleHeap
    Schedules := [("a", 0), ("b", 1), ("c", 2)]
    trace :=
      [Event.AddFunc 2 "@weekly" (resolveAll "c") 3 false,
       Event.AddFunc 0 "@hourly" (resolveAll "a") 7 false] }

/-- A collaborator set under which everything succeeds: the fetch returns the
registry map without error, every container is found, every expression is
accepted and every start succeeds. -/
def happyEnv : Env :=
  sampleEnv (some SchedulesRef.registry) false resolveAll (fun _ => true) startOk

/-- The state a first run leaves from `sampleWorld` when everything succeeds:
`a` is gone from the registry, `b` holds handle 8 and `c` holds handle 3. -/
def settledWorld : World :=
  discoverBody happyEnv SchedulesRef.registry false sampleWorld

/-! ## Bookkeeping lemmas -/

theorem removeCalls_append (a b : List Event) :
    removeCalls (a ++ b) = removeCalls a ++ removeCalls b := by
  induction a with
  | nil => rfl
  | cons e a ih => cases e <;> simp [removeCalls, ih]

theorem addFuncCalls_append (a b : List Event) :
    addFuncCalls (a ++ b) = addFuncCalls a ++ addFuncCalls b := by
  induction a with
  | nil => rfl
  | cons e a ih => cases e <;> simp [addFuncCalls, ih]

theorem store_same (heap : Ptr → Schedule) (p : Ptr) (v : Schedule) :
    store heap p v p = v := by
  simp [store]

theorem store_other (heap : Ptr → Schedule) (p q : Ptr) (v : Schedule) (h : q ≠ p) :
    store heap p v q = heap q := by
  simp [store, h]

/-! ## `clearCron` -/

theorem clearCronLoop_heap (es : List (String × Ptr)) (w : World) (n : Nat) :
    (clearCronLoop es w n).1.heap = w.heap := by
  induction es generalizing w n with
  | nil => rfl
  | cons e es ih =>
    obtain ⟨key, p⟩ := e
    unfold clearCronLoop
    by_cases h : (w.heap p).ToCleanup = true
    · simp only [h, Bool.not_true, Bool.false_eq_true, if_false]
      rw [ih]
    · simp only [Bool.not_eq_true] at h
      simp only [h, Bool.not_false, if_true]
      rw [ih]

theorem clearCronLoop_trace (es : List (String × Ptr)) (w : World) (n : Nat) :
    (clearCronLoop es w n).1.trace = w.trace ++ clearCronEvents w.heap es := by
  induction es generalizing w n with
  | nil => simp [clearCronLoop, clearCronEvents]
  | cons e es ih =>
    obtain ⟨key, p⟩ := e
    unfold clearCronLoop
    by_cases h : (w.heap p).ToCleanup = true
    · simp only [h, Bool.not_true, Bool.false_eq_true, if_false]
      rw [ih]
      simp [clearCronEvents, h]
    · simp only [Bool.not_eq_true] at h
      simp only [h, Bool.not_false, if_true]
      rw [ih]
      simp [clearCronEvents, h]

theorem clearCronLoop_Schedules (es : List (String × Ptr)) (w : World) (n : Nat) :
    (clearCronLoop es w n).1.Schedules =
      w.Schedules.filter
        (fun e => e.1 ∉ (es.filter (fun x => (w.heap x.2).ToCleanup)).map Prod.fst) := by
  induction es generalizing w n with
  | nil => simp [clearCronLoop]
  | cons e es ih =>
    obtain ⟨key, p⟩ := e
    unfold clearCronLoop
    by_cases h : (w.heap p).ToCleanup = true
    · simp only [h, Bool.not_true, Bool.false_eq_true, if_false]
      rw [ih]
      simp only [delete, List.filter_filter, List.filter_cons, h, if_true, List.map_cons,
        List.mem_cons, not_or]
      apply List.filter_congr
      intro x _
      by_cases hx : x.1 = key <;> simp [hx]
    · simp only [Bool.not_eq_true] at h
      simp only [h, Bool.not_false, if_true]
      rw [ih]
      have hf : List.filter (fun x => (w.heap x.2).ToCleanup) ((key, p) :: es) =
          List.filter (fun x => (w.heap x.2).ToCleanup) es := by
        simp [List.filter_cons, h]
      rw [hf]

theorem clearCronLoop_count (es : List (String × Ptr)) (w : World) (n : Nat) :
    (clearCronLoop es w n).2 = n + (es.filter (fun x => (w.heap x.2).ToCleanup)).length := by
  induction es generalizing w n with
  | nil => simp [clearCronLoop]
  | cons e es ih =>
    obtain ⟨key, p⟩ := e
    unfold clearCronLoop
    by_cases h : (w.heap p).ToCleanup = true
    · simp only [h, Bool.not_true, Bool.false_eq_true, if_false]
      rw [ih]
      simp [List.filter_cons, h]
      omega
    · simp only [Bool.not_eq_true] at h
      simp only [h, Bool.not_false, if_true]
      rw [ih]
      simp [List.filter_cons, h]

theorem clearCron_heap (w : World) : (clearCron w).heap = w.heap := by
  unfold clearCron
  simp only
  split
  · exact clearCronLoop_heap _ _ _
  · exact clearCronLoop_heap _ _ _

theorem clearCron_Schedules_eq (w : World) :
    (clearCron w).Schedules =
      w.Schedules.filter
        (fun e => e.1 ∉ (w.Schedules.filter (fun x => (w.heap x.2).ToCleanup)).map Prod.fst) := by
  unfold clearCron
  simp only
  split
  · exact clearCronLoop_Schedules _ _ _
  · exact clearCronLoop_Schedules _ _ _

theorem clearCron_Schedules (w : World) (hkeys : (w.Schedules.map Prod.fst).Nodup) :
    (clearCron w).Schedules = w.Schedules.filter (fun e => !(w.heap e.2).ToCleanup) := by
  rw [clearCron_Schedules_eq]
  apply List.filter_congr
  intro x hx
  have hinj := List.inj_on_of_nodup_map hkeys
  by_cases hc : (w.heap x.2).ToCleanup = true
  · have : x.1 ∈ (w.Schedules.filter (fun x => (w.heap x.2).ToCleanup)).map Prod.fst :=
      List.mem_map.mpr ⟨x, List.mem_filter.mpr ⟨hx, hc⟩, rfl⟩
    simp [hc, this]
  · have : x.1 ∉ (w.Schedules.filter (fun x => (w.heap x.2).ToCleanup)).map Prod.fst := by
      intro hmem
      obtain ⟨y, hy, hxy⟩ := List.mem_map.mp hmem
      obtain ⟨hy1, hy2⟩ := List.mem_filter.mp hy
      have := hinj hy1 hx hxy
      subst this
      exact hc hy2
    simp only [Bool.not_eq_true] at hc
    simp [hc, this]

theorem clearCron_trace (w : World) : (clearCron w).trace = w.trace ++ clearCronTrace w := by
  unfold clearCron clearCronTrace
  simp only [clearCronLoop_count, Nat.zero_add]
  split
  · simp [clearCronLoop_trace]
  · simp [clearCronLoop_trace]

theorem removeCalls_clearCronEvents (heap : Ptr → Schedule) (es : List (String × Ptr)) :
    removeCalls (clearCronEvents heap es) =
      (es.filter (fun e => (heap e.2).ToCleanup)).map (fun e => (e.2, (heap e.2).CronID)) := by
  induction es with
  | nil => rfl
  | cons e es ih =>
    obtain ⟨key, p⟩ := e
    by_cases h : (heap p).ToCleanup = true
    · simp [clearCronEvents, h, removeCalls, ih, List.filter_cons]
    · simp only [Bool.not_eq_true] at h
      simp [clearCronEvents, h, ih, List.filter_cons]

theorem addFuncCalls_clearCronEvents (heap : Ptr → Schedule) (es : List (String × Ptr)) :
    addFuncCalls (clearCronEvents heap es) = [] := by
  induction es with
  | nil => rfl
  | cons e es ih =>
    obtain ⟨key, p⟩ := e
    by_cases h : (heap p).ToCleanup = true
    · simp [clearCronEvents, h, addFuncCalls, ih]
    · simp only [Bool.not_eq_true] at h
      simp [clearCronEvents, h, ih]

theorem removeCalls_clearCronTrace (w : World) :
    removeCalls (clearCronTrace w) =
      (w.Schedules.filter (fun e => (w.heap e.2).ToCleanup)).map
        (fun e => (e.2, (w.heap e.2).CronID)) := by
  unfold clearCronTrace
  rw [removeCalls_append, removeCalls_clearCronEvents]
  split <;> simp [removeCalls]

theorem addFuncCalls_clearCronTrace (w : World) : addFuncCalls (clearCronTrace w) = [] := by
  unfold clearCronTrace
  rw [addFuncCalls_append, addFuncCalls_clearCronEvents]
  split <;> simp [addFuncCalls]

/-! ## The registration loop -/

theorem issued_of_append (w w' : World) (evs : List Event) (h : w'.trace = w.trace ++ evs) :
    issued w w' = evs := by
  simp [issued, h]

theorem errorLogs_append (a b : List Event) : errorLogs (a ++ b) = errorLogs a + errorLogs b := by
  induction a with
  | nil => simp [errorLogs]
  | cons e a ih =>
    cases e with
    | Log level msg fields =>
      cases level
      · simp [errorLogs, ih]
      · simp [errorLogs, ih]
      · simp [errorLogs, ih]
        omega
    | _ => simp [errorLogs, ih]

theorem registerSchedule_spec (env : Env) (p : Ptr) (w : World) :
    ∃ (pre : List Event) (cmd : Option Container),
      (registerSchedule env p w).trace =
        w.trace ++ pre ++
          [Event.AddFunc p (w.heap p).CronExpression cmd
            (env.AddFunc (w.trace ++ pre) (w.heap p).CronExpression cmd).1
            (env.AddFunc (w.trace ++ pre) (w.heap p).CronExpression cmd).2] ∧
      addFuncCalls pre = [] ∧ removeCalls pre = [] ∧
      errorLogs pre = (if cmd.isNone then 1 else 0) ∧
      (registerSchedule env p w).heap =
        store w.heap p
          { w.heap p with
            CronID := (env.AddFunc (w.trace ++ pre) (w.heap p).CronExpression cmd).1 } ∧
      (registerSchedule env p w).Schedules = w.Schedules := by
  unfold registerSchedule getCronFunction
  cases hres : env.GetContainerByUUID w.trace (w.heap p).ContainerUUID with
  | none =>
    refine ⟨[Event.GetContainerByUUID (w.heap p).ContainerUUID none,
      Event.Log Level.Error "could not find container"
        [("container", (w.heap p).ContainerUUID)]], none, ?_, rfl, rfl, rfl, ?_, rfl⟩
    · simp [hres]
    · simp [hres]
  | some container =>
    refine ⟨[Event.GetContainerByUUID (w.heap p).ContainerUUID (some container),
      Event.Log Level.Info "adding container to cron"
        [("schedule", (w.heap p).CronExpression),
         ("containerName", container.Name),
         ("containerUUID", (w.heap p).ContainerUUID)]], some container, ?_, rfl, rfl, rfl, ?_, rfl⟩
    · simp [hres]
    · simp [hres]

theorem discoverLoop_cons_skip (env : Env) (k : String) (p : Ptr) (rest : List (String × Ptr))
    (w : World) (h : 0 < (w.heap p).CronID) :
    discoverLoop env ((k, p) :: rest) w = discoverLoop env rest w := by
  simp [discoverLoop, h]

theorem discoverLoop_cons_register (env : Env) (k : String) (p : Ptr)
    (rest : List (String × Ptr)) (w : World) (h : ¬ 0 < (w.heap p).CronID) :
    discoverLoop env ((k, p) :: rest) w = discoverLoop env rest (registerSchedule env p w) := by
  simp [discoverLoop, h]

theorem discoverLoop_Schedules (env : Env) (es : List (String × Ptr)) (w : World) :
    (discoverLoop env es w).Schedules = w.Schedules := by
  induction es generalizing w with
  | nil => rfl
  | cons e es ih =>
    obtain ⟨k, p⟩ := e
    by_cases h : 0 < (w.heap p).CronID
    · rw [discoverLoop_cons_skip env k p es w h, ih]
    · rw [discoverLoop_cons_register env k p es w h, ih]
      exact (registerSchedule_spec env p w).choose_spec.choose_spec.2.2.2.2.2

theorem discoverLoop_all_bound (env : Env) (es : List (String × Ptr)) (w : World)
    (h : ∀ e ∈ es, 0 < (w.heap e.2).CronID) : discoverLoop env es w = w := by
  induction es with
  | nil => rfl
  | cons e es ih =>
    obtain ⟨k, p⟩ := e
    rw [discoverLoop_cons_skip env k p es w (h (k, p) (List.mem_cons_self _ _))]
    exact ih (fun e he => h e (List.mem_cons_of_mem _ he))

theorem discoverLoop_frame (env : Env) (es : List (String × Ptr)) (w : World) (p : Ptr)
    (hp : p ∉ es.map Prod.snd) : (discoverLoop env es w).heap p = w.heap p := by
  induction es generalizing w with
  | nil => rfl
  | cons e es ih =>
    obtain ⟨k, q⟩ := e
    simp only [List.map_cons, List.mem_cons, not_or] at hp
    by_cases h : 0 < (w.heap q).CronID
    · rw [discoverLoop_cons_skip env k q es w h, ih w hp.2]
    · rw [discoverLoop_cons_register env k q es w h, ih _ hp.2]
      obtain ⟨pre, cmd, -, -, -, -, hheap, -⟩ := registerSchedule_spec env q w
      rw [hheap, store_other _ _ _ _ hp.1]

theorem discoverLoop_trace (env : Env) (es : List (String × Ptr)) (w : World) :
    ∃ evs, (discoverLoop env es w).trace = w.trace ++ evs ∧ removeCalls evs = [] ∧
      errorLogs evs = ((addFuncCalls evs).filter (fun c => c.cmd.isNone)).length := by
  induction es generalizing w with
  | nil => exact ⟨[], by simp [discoverLoop], rfl, rfl⟩
  | cons e es ih =>
    obtain ⟨k, p⟩ := e
    by_cases h : 0 < (w.heap p).CronID
    · rw [discoverLoop_cons_skip env k p es w h]
      exact ih w
    · rw [discoverLoop_cons_register env k p es w h]
      obtain ⟨pre, cmd, htr, hadd, hrem, herr, -, -⟩ := registerSchedule_spec env p w
      obtain ⟨evs, ht, hr, hl⟩ := ih (registerSchedule env p w)
      refine ⟨pre ++ [Event.AddFunc p (w.heap p).CronExpression cmd
            (env.AddFunc (w.trace ++ pre) (w.heap p).CronExpression cmd).1
            (env.AddFunc (w.trace ++ pre) (w.heap p).CronExpression cmd).2] ++ evs, ?_, ?_, ?_⟩
      · rw [ht, htr]; simp
      · simp [removeCalls_append, hrem, hr, removeCalls]
      · simp only [errorLogs_append, addFuncCalls_append, hadd, herr, hl, errorLogs, addFuncCalls,
          List.nil_append, List.cons_append, List.filter_cons]
        cases cmd
        · simp
          omega
        · simp

/-- A schedule that holds a handle when the loop starts is left alone by it:
no `cr.AddFunc` call is issued for it and the object is not written. -/
theorem discoverLoop_bound (env : Env) (es : List (String × Ptr)) (w : World) (p : Ptr)
    (hp : 0 < (w.heap p).CronID) :
    ∃ evs, (discoverLoop env es w).trace = w.trace ++ evs ∧
      (∀ c ∈ addFuncCalls evs, c.schedule ≠ p) ∧ (discoverLoop env es w).heap p = w.heap p := by
  induction es generalizing w with
  | nil => exact ⟨[], by simp [discoverLoop], by simp [addFuncCalls], rfl⟩
  | cons e es ih =>
    obtain ⟨k, q⟩ := e
    by_cases h : 0 < (w.heap q).CronID
    · rw [discoverLoop_cons_skip env k q es w h]
      exact ih w hp
    · rw [discoverLoop_cons_register env k q es w h]
      have hqp : p ≠ q := by
        intro hpq
        subst hpq
        exact h hp
      obtain ⟨pre, cmd, htr, hadd, -, -, hheap, -⟩ := registerSchedule_spec env q w
      have hp1 : (registerSchedule env q w).heap p = w.heap p := by
        rw [hheap, store_other _ _ _ _ hqp]
      obtain ⟨evs, ht, hc, hh⟩ := ih (registerSchedule env q w) (by rw [hp1]; exact hp)
      refine ⟨pre ++ [Event.AddFunc q (w.heap q).CronExpression cmd
            (env.AddFunc (w.trace ++ pre) (w.heap q).CronExpression cmd).1
            (env.AddFunc (w.trace ++ pre) (w.heap q).CronExpression cmd).2] ++ evs, ?_, ?_, ?_⟩
      · rw [ht, htr]; simp
      · intro c hcm
        simp only [addFuncCalls_append, hadd, addFuncCalls, List.nil_append, List.cons_append,
          List.mem_cons] at hcm
        rcases hcm with rfl | hcm
        · exact fun hq => hqp hq.symm
        · exact hc c hcm
      · rw [hh, hp1]

/-- When the entries of `schedules` are distinct objects, every `cr.AddFunc`
call of the loop is the only one for its schedule, is given that schedule's
cron expression, and its entry ID is what the schedule's `CronID` holds when
the loop is over; nothing else of the schedule is written. -/
theorem discoverLoop_calls (env : Env) (es : List (String × Ptr)) (w : World)
    (hnd : (es.map Prod.snd).Nodup) :
    ∃ evs, (discoverLoop env es w).trace = w.trace ++ evs ∧
      ∀ c ∈ addFuncCalls evs,
        c.schedule ∈ es.map Prod.snd ∧
        (addFuncCalls evs).filter (fun c' => c'.schedule = c.schedule) = [c] ∧
        c.spec = (w.heap c.schedule).CronExpression ∧
        ¬ 0 < (w.heap c.schedule).CronID ∧
        (discoverLoop env es w).heap c.schedule =
          { w.heap c.schedule with CronID := c.entryID } := by
  induction es generalizing w with
  | nil => exact ⟨[], by simp [discoverLoop], by simp [addFuncCalls]⟩
  | cons e es ih =>
    obtain ⟨k, p⟩ := e
    simp only [List.map_cons, List.nodup_cons] at hnd
    obtain ⟨hp, hnd⟩ := hnd
    by_cases h : 0 < (w.heap p).CronID
    · rw [discoverLoop_cons_skip env k p es w h]
      obtain ⟨evs, ht, hc⟩ := ih w hnd
      refine ⟨evs, ht, fun c hcm => ?_⟩
      obtain ⟨h1, h2, h3, h4, h5⟩ := hc c hcm
      exact ⟨List.mem_cons_of_mem _ h1, h2, h3, h4, h5⟩
    · rw [discoverLoop_cons_register env k p es w h]
      obtain ⟨pre, cmd, htr, hadd, -, -, hheap, -⟩ := registerSchedule_spec env p w
      obtain ⟨evs, ht, hc⟩ := ih (registerSchedule env p w) hnd
      refine ⟨pre ++ [Event.AddFunc p (w.heap p).CronExpression cmd
            (env.AddFunc (w.trace ++ pre) (w.heap p).CronExpression cmd).1
            (env.AddFunc (w.trace ++ pre) (w.heap p).CronExpression cmd).2] ++ evs, ?_, ?_⟩
      · rw [ht, htr]; simp
      · have hrest : ∀ c ∈ addFuncCalls evs, c.schedule ≠ p := by
          intro c hcm hcp
          exact hp (hcp ▸ (hc c hcm).1)
        intro c hcm
        simp only [addFuncCalls_append, hadd, addFuncCalls, List.nil_append, List.cons_append,
          List.mem_cons] at hcm ⊢
        rcases hcm with rfl | hcm
        · refine ⟨List.mem_cons_self _ _, ?_, rfl, h, ?_⟩
          · have hnil : (addFuncCalls evs).filter (fun c' => decide (c'.schedule = p)) = [] := by
              rw [List.filter_eq_nil_iff]
              intro c' hc'
              simpa using hrest c' hc'
            simp [List.filter_cons, hnil]
          · rw [discoverLoop_frame env es _ p hp, hheap, store_same]
        · obtain ⟨h1, h2, h3, h4, h5⟩ := hc c hcm
          have hne : c.schedule ≠ p := hrest c hcm
          have hsame : (registerSchedule env p w).heap c.schedule = w.heap c.schedule := by
            rw [hheap, store_other _ _ _ _ hne]
          refine ⟨List.mem_cons_of_mem _ h1, ?_, ?_, ?_, ?_⟩
          · have : ¬ p = c.schedule := fun hpc => hne hpc.symm
            simp only [List.filter_cons, this, decide_False, Bool.false_eq_true, if_false]
            exact h2
          · rw [h3, hsame]
          · rw [← hsame]; exact h4
          · rw [h5, hsame]

/-- With an engine that keeps the promise of `CronEngine`, the entry ID of a
registration that succeeded is returned by no `cr.AddFunc` call issued for
another schedule during the loop. -/
theorem discoverLoop_handles (env : Env) (es : List (String × Ptr)) (w : World)
    (heng : CronEngine env) :
    ∃ evs, (discoverLoop env es w).trace = w.trace ++ evs ∧
      (∀ c ∈ addFuncCalls evs,
        (c.err = true → c.entryID = 0) ∧
        (c.err = false → 0 < c.entryID ∧ ∀ c0 ∈ addFuncCalls w.trace, c0.entryID < c.entryID)) ∧
      (∀ c ∈ addFuncCalls evs, c.err = false →
        ∀ c' ∈ addFuncCalls evs, c'.entryID = c.entryID → c'.schedule = c.schedule) := by
  induction es generalizing w with
  | nil => exact ⟨[], by simp [discoverLoop], by simp [addFuncCalls], by simp [addFuncCalls]⟩
  | cons e es ih =>
    obtain ⟨k, p⟩ := e
    by_cases h : 0 < (w.heap p).CronID
    · rw [discoverLoop_cons_skip env k p es w h]
      exact ih w
    · rw [discoverLoop_cons_register env k p es w h]
      obtain ⟨pre, cmd, htr, hadd, -, -, -, -⟩ := registerSchedule_spec env p w
      obtain ⟨evs, ht, hmono, huniq⟩ := ih (registerSchedule env p w)
      obtain ⟨hfail, hok⟩ := heng (w.trace ++ pre) (w.heap p).CronExpression cmd
      have hhist : addFuncCalls (w.trace ++ pre) = addFuncCalls w.trace := by
        rw [addFuncCalls_append, hadd, List.append_nil]
      rw [hhist] at hok
      have hhist1 : addFuncCalls (registerSchedule env p w).trace =
          addFuncCalls w.trace ++
            [{ schedule := p, spec := (w.heap p).CronExpression, cmd := cmd,
               entryID := (env.AddFunc (w.trace ++ pre) (w.heap p).CronExpression cmd).1,
               err := (env.AddFunc (w.trace ++ pre) (w.heap p).CronExpression cmd).2 }] := by
        rw [htr, addFuncCalls_append, addFuncCalls_append, hadd]
        simp [addFuncCalls]
      rw [hhist1] at hmono
      refine ⟨pre ++ [Event.AddFunc p (w.heap p).CronExpression cmd
            (env.AddFunc (w.trace ++ pre) (w.heap p).CronExpression cmd).1
            (env.AddFunc (w.trace ++ pre) (w.heap p).CronExpression cmd).2] ++ evs, ?_, ?_, ?_⟩
      · rw [ht, htr]; simp
      · intro c hcm
        simp only [addFuncCalls_append, hadd, addFuncCalls, List.nil_append, List.cons_append,
          List.mem_cons] at hcm
        rcases hcm with rfl | hcm
        · exact ⟨hfail, hok⟩
        · obtain ⟨h1, h2⟩ := hmono c hcm
          refine ⟨h1, fun he => ⟨(h2 he).1, fun c0 hc0 => ?_⟩⟩
          exact (h2 he).2 c0 (List.mem_append_left _ hc0)
      · intro c hcm hce c' hcm' hid
        simp only [addFuncCalls_append, hadd, addFuncCalls, List.nil_append, List.cons_append,
          List.mem_cons] at hcm hcm'
        rcases hcm with rfl | hcm
        · rcases hcm' with rfl | hcm'
          · rfl
          · exfalso
            obtain ⟨h1, h2⟩ := hmono c' hcm'
            have hpos := (hok hce).1
            simp only at hid hpos
            cases hc'e : c'.err with
            | true =>
              have := h1 hc'e
              omega
            | false =>
              have := (h2 hc'e).2 _ (List.mem_append_right _ (List.mem_singleton_self _))
              simp only at this
              omega
        · rcases hcm' with rfl | hcm'
          · exfalso
            obtain ⟨-, h2⟩ := hmono c hcm
            have := (h2 hce).2 _ (List.mem_append_right _ (List.mem_singleton_self _))
            simp only at this hid
            omega
          · exact huniq c hcm hce c' hcm' hid

/-- Every schedule that is unbound when the loop starts gets a `cr.AddFunc`
call. -/
theorem discoverLoop_registers (env : Env) (es : List (String × Ptr)) (w : World) (p : Ptr)
    (hp : p ∈ es.map Prod.snd) (hid : ¬ 0 < (w.heap p).CronID) :
    ∃ evs, (discoverLoop env es w).trace = w.trace ++ evs ∧
      ∃ c ∈ addFuncCalls evs, c.schedule = p := by
  induction es generalizing w with
  | nil => simp at hp
  | cons e es ih =>
    obtain ⟨k, q⟩ := e
    simp only [List.map_cons, List.mem_cons] at hp
    by_cases h : 0 < (w.heap q).CronID
    · rw [discoverLoop_cons_skip env k q es w h]
      rcases hp with rfl | hp
      · exact absurd h hid
      · exact ih w hp hid
    · rw [discoverLoop_cons_register env k q es w h]
      obtain ⟨pre, cmd, htr, hadd, -, -, hheap, -⟩ := registerSchedule_spec env q w
      obtain ⟨evs, ht, -⟩ := discoverLoop_trace env es (registerSchedule env q w)
      by_cases hpq : p = q
      · subst hpq
        refine ⟨pre ++ [Event.AddFunc p (w.heap p).CronExpression cmd
            (env.AddFunc (w.trace ++ pre) (w.heap p).CronExpression cmd).1
            (env.AddFunc (w.trace ++ pre) (w.heap p).CronExpression cmd).2] ++ evs, ?_, ?_⟩
        · rw [ht, htr]; simp
        · refine ⟨AddFuncCall.mk p (w.heap p).CronExpression cmd
              (env.AddFunc (w.trace ++ pre) (w.heap p).CronExpression cmd).1
              (env.AddFunc (w.trace ++ pre) (w.heap p).CronExpression cmd).2, ?_, rfl⟩
          simp [addFuncCalls_append, hadd, addFuncCalls]
      · have hp' : p ∈ es.map Prod.snd := by
          rcases hp with hp | hp
          · exact absurd hp hpq
          · exact hp
        have hsame : (registerSchedule env q w).heap p = w.heap p := by
          rw [hheap, store_other _ _ _ _ hpq]
        obtain ⟨evs', ht', c, hc, hcp⟩ := ih (registerSchedule env q w) hp' (by rw [hsame]; exact hid)
        refine ⟨pre ++ [Event.AddFunc q (w.heap q).CronExpression cmd
            (env.AddFunc (w.trace ++ pre) (w.heap q).CronExpression cmd).1
            (env.AddFunc (w.trace ++ pre) (w.heap q).CronExpression cmd).2] ++ evs', ?_, c, ?_, hcp⟩
        · rw [ht', htr]; simp
        · simp only [addFuncCalls_append, List.mem_append]
          exact Or.inr hc

/-! ## `discoverCronContainers` -/

theorem errorLogs_clearCronTrace (w : World) : errorLogs (clearCronTrace w) = 0 := by
  have h : ∀ es : List (String × Ptr), errorLogs (clearCronEvents w.heap es) = 0 := by
    intro es
    induction es with
    | nil => rfl
    | cons e es ih =>
      obtain ⟨key, p⟩ := e
      by_cases hc : (w.heap p).ToCleanup = true
      · simp [clearCronEvents, hc, errorLogs, ih]
      · simp only [Bool.not_eq_true] at hc
        simp [clearCronEvents, hc, ih]
  unfold clearCronTrace
  rw [errorLogs_append, h]
  split <;> simp [errorLogs]

theorem clearCronTrace_congr (a b : World) (h1 : a.heap = b.heap)
    (h2 : a.Schedules = b.Schedules) : clearCronTrace a = clearCronTrace b := by
  unfold clearCronTrace
  rw [h1, h2]

theorem clearCron_Schedules_congr (a b : World) (h1 : a.heap = b.heap)
    (h2 : a.Schedules = b.Schedules) : (clearCron a).Schedules = (clearCron b).Schedules := by
  rw [clearCron_Schedules_eq, clearCron_Schedules_eq, h1, h2]

theorem discoverChecks_spec (ref : SchedulesRef) (err : Bool) (w : World) :
    (discoverChecks ref err w).heap = w.heap ∧
    (discoverChecks ref err w).Schedules = w.Schedules ∧
    ∃ pre, (discoverChecks ref err w).trace = w.trace ++ pre ∧ addFuncCalls pre = [] ∧
      removeCalls pre = [] ∧
      errorLogs pre = (if err then 1 else 0) + (if (entries ref w).length = 0 then 1 else 0) := by
  have hent : ∀ l, entries ref { w with trace := l } = entries ref w := by
    intro l
    cases ref <;> rfl
  cases err
  · by_cases hl : (entries ref w).length = 0
    · have hw : discoverChecks ref false w = { w with trace := w.trace ++ [noSchedulesLine] } := by
        simp [discoverChecks, hl]
      rw [hw]
      exact ⟨rfl, rfl, [noSchedulesLine], rfl, rfl, rfl, by simp [errorLogs, noSchedulesLine, hl]⟩
    · have hw : discoverChecks ref false w = w := by
        simp [discoverChecks, hl]
      rw [hw]
      exact ⟨rfl, rfl, [], by simp, rfl, rfl, by simp [errorLogs, hl]⟩
  · by_cases hl : (entries ref w).length = 0
    · have hw : discoverChecks ref true w =
          { w with trace := w.trace ++ [fetchErrorLine] ++ [noSchedulesLine] } := by
        simp [discoverChecks, hl, hent]
      rw [hw]
      exact ⟨rfl, rfl, [fetchErrorLine, noSchedulesLine], by simp, rfl, rfl,
        by simp [errorLogs, fetchErrorLine, noSchedulesLine, hl]⟩
    · have hw : discoverChecks ref true w = { w with trace := w.trace ++ [fetchErrorLine] } := by
        simp [discoverChecks, hl, hent]
      rw [hw]
      exact ⟨rfl, rfl, [fetchErrorLine], rfl, rfl, rfl,
        by simp [errorLogs, fetchErrorLine, hl]⟩

/-- The state in which the loop of `discoverCronContainers` starts: the heap
is untouched, the registry is what `clearCron` left, and the calls issued so
far are log lines and the calls of `clearCron`. -/
theorem discoverSetup_spec (ref : SchedulesRef) (err : Bool) (w : World) :
    (discoverSetup ref err w).heap = w.heap ∧
    (discoverSetup ref err w).Schedules = (clearCron w).Schedules ∧
    ∃ pre, (discoverSetup ref err w).trace = w.trace ++ pre ∧ addFuncCalls pre = [] ∧
      removeCalls pre = removeCalls (clearCronTrace w) ∧
      errorLogs pre = (if err then 1 else 0) + (if (entries ref w).length = 0 then 1 else 0) := by
  obtain ⟨h1, h2, pre, h3, h4, h5, h6⟩ := discoverChecks_spec ref err w
  unfold discoverSetup
  refine ⟨?_, ?_, ?_⟩
  · simp only []
    rw [clearCron_heap, h1]
  · simp only []
    exact clearCron_Schedules_congr _ _ h1 h2
  · simp only []
    rw [clearCron_trace, h3, clearCronTrace_congr _ w h1 h2]
    refine ⟨pre ++ clearCronTrace w ++
      [discoveryLine (entries ref (clearCron (discoverChecks ref err w))).length], ?_, ?_, ?_, ?_⟩
    · simp only [List.append_assoc]
    · simp [addFuncCalls_append, h4, addFuncCalls_clearCronTrace, addFuncCalls, discoveryLine]
    · simp [removeCalls_append, h5, removeCalls, discoveryLine]
    · simp [errorLogs_append, h6, errorLogs_clearCronTrace, errorLogs, discoveryLine]

theorem discoverCronContainers_eq (env : Env) (w : World) (ref : SchedulesRef)
    (h : (env.GetCronSchedules w).sched = some ref) :
    discoverCronContainers env w =
      Except.ok (discoverBody env ref (env.GetCronSchedules w).err (fetched env w)) := by
  unfold discoverCronContainers
  rw [h]

theorem discoverCronContainers_ok (env : Env) (w w' : World)
    (hrun : discoverCronContainers env w = Except.ok w') :
    ∃ ref, (env.GetCronSchedules w).sched = some ref ∧
      w' = discoverBody env ref (env.GetCronSchedules w).err (fetched env w) := by
  cases hs : (env.GetCronSchedules w).sched with
  | none =>
    unfold discoverCronContainers at hrun
    rw [hs] at hrun
    cases hrun
  | some ref =>
    rw [discoverCronContainers_eq env w ref hs] at hrun
    exact ⟨ref, rfl, (Except.ok.inj hrun).symm⟩

theorem fetchedEntries_eq (env : Env) (w : World) (ref : SchedulesRef)
    (h : (env.GetCronSchedules w).sched = some ref) :
    fetchedEntries env w = entries ref (fetched env w) := by
  unfold fetchedEntries
  rw [h]

theorem entries_discoverSetup (ref : SchedulesRef) (err : Bool) (w : World) :
    entries ref (discoverSetup ref err w) = entries ref (clearCron w) := by
  cases ref with
  | registry => exact (discoverSetup_spec SchedulesRef.registry err w).2.1
  | other es => rfl

theorem entries_clearCron_sublist (ref : SchedulesRef) (w : World) :
    (entries ref (clearCron w)).Sublist (entries ref w) := by
  cases ref with
  | registry =>
    show (clearCron w).Schedules.Sublist w.Schedules
    rw [clearCron_Schedules_eq]
    exact List.filter_sublist _
  | other es => exact List.Sublist.refl _

theorem discoverLoop_issued (env : Env) (es : List (String × Ptr)) (w : World) :
    (discoverLoop env es w).trace = w.trace ++ issued w (discoverLoop env es w) := by
  obtain ⟨evs, ht, -⟩ := discoverLoop_trace env es w
  rw [issued_of_append _ _ _ ht, ht]

/-- The calls of one run of the body: log lines and the calls of `clearCron`
first, the calls of the loop after them. -/
theorem discoverBody_issued (env : Env) (ref : SchedulesRef) (err : Bool) (v : World) :
    ∃ pre, issued v (discoverBody env ref err v) =
        pre ++ issued (discoverSetup ref err v) (discoverBody env ref err v) ∧
      addFuncCalls pre = [] ∧ removeCalls pre = removeCalls (clearCronTrace v) ∧
      errorLogs pre = (if err then 1 else 0) + (if (entries ref v).length = 0 then 1 else 0) := by
  obtain ⟨-, -, pre, htr, hadd, hrem, hlog⟩ := discoverSetup_spec ref err v
  refine ⟨pre, ?_, hadd, hrem, hlog⟩
  apply issued_of_append
  have h := discoverLoop_issued env (entries ref (discoverSetup ref err v)) (discoverSetup ref err v)
  unfold discoverBody
  rw [h, htr, List.append_assoc]

theorem maxEntryID_le (trace : List Event) :
    ∀ c ∈ addFuncCalls trace, c.entryID ≤ maxEntryID trace := by
  unfold maxEntryID
  induction addFuncCalls trace with
  | nil => intro c hc; cases hc
  | cons a l ih =>
    intro c hc
    simp only [List.map_cons, List.foldr_cons]
    rcases List.mem_cons.mp hc with rfl | hc
    · exact le_max_left _ _
    · exact le_trans (ih c hc) (le_max_right _ _)

theorem maxEntryID_nonneg (trace : List Event) : 0 ≤ maxEntryID trace := by
  unfold maxEntryID
  induction addFuncCalls trace with
  | nil => simp
  | cons a l ih =>
    simp only [List.map_cons, List.foldr_cons]
    exact le_trans ih (le_max_right _ _)

theorem sampleEnv_CronEngine (sched : Option SchedulesRef) (err : Bool)
    (resolve : String → Option Container) (parses : String → Bool)
    (start : String → Option Container × Bool) :
    CronEngine (sampleEnv sched err resolve parses start) := by
  intro trace spec cmd
  have h1 := maxEntryID_le trace
  have h2 := maxEntryID_nonneg trace
  by_cases hp : parses spec = true
  · simp only [sampleEnv, hp, if_true, Bool.false_eq_true, false_implies, true_and, forall_true_left]
    refine ⟨by omega, fun c hc => ?_⟩
    have := h1 c hc
    omega
  · simp [sampleEnv, hp]

/-! ## The claims -/

/-- C1, at a failing input: `s.GetCronSchedules()` returns a non-nil error
together with the registry map, and nothing else has changed.  The run does
not skip the tick: after the error line it cancels handle 7 of the flagged
schedule `a` and removes `a` from the registry, and it registers the unbound
schedule `b`, whose `CronID` goes from 0 to 8. -/
theorem discoverCronContainers_fetch_error_not_skipped :
    ∃ w', discoverCronContainers
        (sampleEnv (some SchedulesRef.registry) true resolveAll (fun _ => true) startOk)
        sampleWorld = Except.ok w' ∧
      removeCalls (issued sampleWorld w') = [(0, 7)] ∧
      addFuncCalls (issued sampleWorld w') =
        [{ schedule := 1, spec := "@daily", cmd := resolveAll "b", entryID := 8, err := false }] ∧
      sampleWorld.Schedules = [("a", 0), ("b", 1), ("c", 2)] ∧
      w'.Schedules = [("b", 1), ("c", 2)] ∧
      (sampleWorld.heap 1).CronID = 0 ∧ (w'.heap 1).CronID = 8 :=
  ⟨_, rfl, by decide, by decide, by decide, by decide, by decide, by decide⟩

/-- C2: after `clearCron` the registry holds exactly the entries whose
schedule was not flagged `ToCleanup`, under their keys and in their order, and
no `Schedule` object has been written; every flagged entry is gone.  The
desired set is no input of `clearCron`, so this holds whatever it contains. -/
theorem clearCron_keeps_exactly_unflagged (w : World)
    (hkeys : (w.Schedules.map Prod.fst).Nodup) :
    (clearCron w).Schedules = w.Schedules.filter (fun e => !(w.heap e.2).ToCleanup) ∧
    (clearCron w).heap = w.heap :=
  ⟨clearCron_Schedules w hkeys, clearCron_heap w⟩

/-- C2 at `sampleWorld`: the flagged `a` goes, `b` and `c` stay. -/
theorem clearCron_keeps_exactly_unflagged_witness :
    (sampleWorld.Schedules.map Prod.fst).Nodup ∧
    (clearCron sampleWorld).Schedules = [("b", 1), ("c", 2)] ∧
    (clearCron sampleWorld).heap = sampleWorld.heap :=
  ⟨by decide, (clearCron_keeps_exactly_unflagged sampleWorld (by decide)).1.trans (by decide),
    (clearCron_keeps_exactly_unflagged sampleWorld (by decide)).2⟩

/-- C3: the `cr.Remove` calls `clearCron` issues are, entry by entry, one call
for each registry entry whose schedule is flagged `ToCleanup`, with the
`CronID` stored in that schedule; no call is issued for a schedule that is
not flagged. -/
theorem clearCron_cancels_exactly_flagged (w : World) :
    (clearCron w).trace = w.trace ++ issued w (clearCron w) ∧
    removeCalls (issued w (clearCron w)) =
      (w.Schedules.filter (fun e => (w.heap e.2).ToCleanup)).map
        (fun e => (e.2, (w.heap e.2).CronID)) ∧
    ∀ call ∈ removeCalls (issued w (clearCron w)),
      (w.heap call.1).ToCleanup = true ∧ call.2 = (w.heap call.1).CronID := by
  have hiss : issued w (clearCron w) = clearCronTrace w :=
    issued_of_append _ _ _ (clearCron_trace w)
  rw [hiss, removeCalls_clearCronTrace]
  refine ⟨clearCron_trace w, rfl, ?_⟩
  intro call hcall
  obtain ⟨e, he, rfl⟩ := List.mem_map.mp hcall
  exact ⟨(List.mem_filter.mp he).2, rfl⟩

/-- C4: when `s.GetCronSchedules()` returns a set all of whose schedules hold
a handle (`CronID > 0`), and no registry entry is flagged `ToCleanup`, the run
completes, issues no `cr.AddFunc` and no `cr.Remove` call, and leaves the
registry and every `Schedule` object as they were when the fetch returned.
This is the state a first run leaves when every registration got a handle. -/
theorem discoverCronContainers_idempotent (env : Env) (w : World)
    (hsched : (env.GetCronSchedules w).sched ≠ none)
    (hbound : ∀ e ∈ fetchedEntries env w, 0 < ((fetched env w).heap e.2).CronID)
    (hclean : ∀ e ∈ (fetched env w).Schedules, ((fetched env w).heap e.2).ToCleanup = false) :
    ∃ w', discoverCronContainers env w = Except.ok w' ∧
      w'.heap = (fetched env w).heap ∧ w'.Schedules = (fetched env w).Schedules ∧
      addFuncCalls (issued w w') = [] ∧ removeCalls (issued w w') = [] := by
  obtain ⟨ref, hs⟩ := Option.ne_none_iff_exists'.mp hsched
  rw [fetchedEntries_eq env w ref hs] at hbound
  refine ⟨_, discoverCronContainers_eq env w ref hs, ?_⟩
  have hnone : (fetched env w).Schedules.filter
      (fun x => ((fetched env w).heap x.2).ToCleanup) = [] := by
    rw [List.filter_eq_nil_iff]
    intro e he
    simp [hclean e he]
  have hkeep : (clearCron (fetched env w)).Schedules = (fetched env w).Schedules := by
    rw [clearCron_Schedules_eq, hnone]
    simp
  obtain ⟨hheap, hSched, -⟩ :=
    discoverSetup_spec ref (env.GetCronSchedules w).err (fetched env w)
  have hent : entries ref (discoverSetup ref (env.GetCronSchedules w).err (fetched env w)) =
      entries ref (fetched env w) := by
    cases ref with
    | registry => exact hSched.trans hkeep
    | other es => rfl
  have hloop : discoverBody env ref (env.GetCronSchedules w).err (fetched env w) =
      discoverSetup ref (env.GetCronSchedules w).err (fetched env w) := by
    unfold discoverBody
    apply discoverLoop_all_bound
    intro e he
    rw [hent] at he
    rw [hheap]
    exact hbound e he
  obtain ⟨pre, hiss, hadd, hrem, -⟩ :=
    discoverBody_issued env ref (env.GetCronSchedules w).err (fetched env w)
  have hiss' : issued w (discoverBody env ref (env.GetCronSchedules w).err (fetched env w)) =
      pre := by
    have h0 : issued (discoverSetup ref (env.GetCronSchedules w).err (fetched env w))
        (discoverBody env ref (env.GetCronSchedules w).err (fetched env w)) = [] := by
      rw [hloop]
      simp [issued]
    rw [h0, List.append_nil] at hiss
    exact hiss
  refine ⟨?_, ?_, ?_, ?_⟩
  · rw [hloop, hheap]
  · rw [hloop, hSched, hkeep]
  · rw [hiss', hadd]
  · rw [hiss', hrem, removeCalls_clearCronTrace, hnone]
    rfl

/-- C4 at `settledWorld`, the state a first run over `sampleWorld` leaves: the
first run completed and left `b` and `c` bound and nothing flagged, and a
second run that fetches the same set issues no call and changes nothing. -/
theorem discoverCronContainers_idempotent_witness :
    discoverCronContainers happyEnv sampleWorld = Except.ok settledWorld ∧
    settledWorld.Schedules = [("b", 1), ("c", 2)] ∧
    (settledWorld.heap 1).CronID = 8 ∧ (settledWorld.heap 2).CronID = 3 ∧
    ∃ w', discoverCronContainers happyEnv settledWorld = Except.ok w' ∧
      w'.heap = settledWorld.heap ∧ w'.Schedules = settledWorld.Schedules ∧
      addFuncCalls (issued settledWorld w') = [] ∧ removeCalls (issued settledWorld w') = [] :=
  ⟨rfl, by decide, by decide, by decide,
    discoverCronContainers_idempotent happyEnv settledWorld (by decide) (by decide) (by decide)⟩

/-- C5, at a failing input: `c.GetContainerByUUID` fails for the unbound
schedule `b`.  The run logs "could not find container" and still calls
`cr.AddFunc` for `b`, with a nil callback, and stores the returned entry ID:
the `CronID` of `b` goes from 0 to 8. -/
theorem discoverCronContainers_unresolved_still_registered :
    ∃ w', discoverCronContainers
        (sampleEnv (some SchedulesRef.registry) false resolveNone (fun _ => true) startOk)
        sampleWorld = Except.ok w' ∧
      Event.Log Level.Error "could not find container" [("container", "b")] ∈
        issued sampleWorld w' ∧
      addFuncCalls (issued sampleWorld w') =
        [{ schedule := 1, spec := "@daily", cmd := none, entryID := 8, err := false }] ∧
      (sampleWorld.heap 1).CronID = 0 ∧ (w'.heap 1).CronID = 8 :=
  ⟨_, rfl, by decide, by decide, by decide, by decide⟩

/-- C6 fails as stated: `cr.AddFunc` returns an error for the unbound schedule
`b`.  After the run the registry still holds `b`, not flagged and with
`CronID` 0, and the run has logged no error line. -/
theorem discoverCronContainers_registration_error_not_dropped :
    ∃ w', discoverCronContainers
        (sampleEnv (some SchedulesRef.registry) false resolveAll (fun _ => false) startOk)
        sampleWorld = Except.ok w' ∧
      addFuncCalls (issued sampleWorld w') =
        [{ schedule := 1, spec := "@daily", cmd := resolveAll "b", entryID := 0, err := true }] ∧
      ("b", 1) ∈ w'.Schedules ∧
      (w'.heap 1).ToCleanup = false ∧ (w'.heap 1).CronID = 0 ∧
      errorLogs (issued sampleWorld w') = 0 :=
  ⟨_, rfl, by decide, by decide, by decide, by decide, by decide⟩

/-- C6 as amended: in a completed run over distinct schedules, a `cr.AddFunc`
call that returned an error is the only call issued for its schedule (no
retry in the tick); the schedule keeps all its fields but `CronID`, which is
set to the entry ID returned with the error (0 for an engine that keeps
`CronEngine`); the loop removes nothing from the registry, which is what
`clearCron` left; and the error is not logged: the Error-level lines of the
run are the one for a fetch error, the one for an empty set, and one for each
registration whose callback could not be resolved. -/
theorem discoverCronContainers_registration_error_kept (env : Env) (w w' : World)
    (hrun : discoverCronContainers env w = Except.ok w')
    (hptrs : ((fetchedEntries env w).map Prod.snd).Nodup)
    (c : AddFuncCall) (hc : c ∈ addFuncCalls (issued w w')) (herr : c.err = true) :
    (addFuncCalls (issued w w')).filter (fun c' => c'.schedule = c.schedule) = [c] ∧
    w'.heap c.schedule = { (fetched env w).heap c.schedule with CronID := c.entryID } ∧
    (CronEngine env → (w'.heap c.schedule).CronID = 0) ∧
    w'.Schedules = (clearCron (fetched env w)).Schedules ∧
    errorLogs (issued w w') =
      (if (env.GetCronSchedules w).err then 1 else 0) +
      (if (fetchedEntries env w).length = 0 then 1 else 0) +
      ((addFuncCalls (issued w w')).filter (fun c' => c'.cmd.isNone)).length := by
  obtain ⟨ref, hs, rfl⟩ := discoverCronContainers_ok env w w' hrun
  rw [fetchedEntries_eq env w ref hs] at hptrs ⊢
  obtain ⟨hheap, hSched, -⟩ :=
    discoverSetup_spec ref (env.GetCronSchedules w).err (fetched env w)
  obtain ⟨pre, hiss, hadd, -, hlog⟩ :=
    discoverBody_issued env ref (env.GetCronSchedules w).err (fetched env w)
  have hiss' : issued w (discoverBody env ref (env.GetCronSchedules w).err (fetched env w)) =
      pre ++ issued (discoverSetup ref (env.GetCronSchedules w).err (fetched env w))
        (discoverBody env ref (env.GetCronSchedules w).err (fetched env w)) := hiss
  have hnd : ((entries ref (discoverSetup ref (env.GetCronSchedules w).err
      (fetched env w))).map Prod.snd).Nodup := by
    rw [entries_discoverSetup]
    exact hptrs.sublist ((entries_clearCron_sublist ref _).map _)
  rw [hiss', addFuncCalls_append, hadd, List.nil_append] at hc
  rw [hiss', addFuncCalls_append, hadd, List.nil_append, errorLogs_append, hlog]
  unfold discoverBody at hc ⊢
  obtain ⟨evs, ht, hcalls⟩ := discoverLoop_calls env _
    (discoverSetup ref (env.GetCronSchedules w).err (fetched env w)) hnd
  obtain ⟨evs', ht', -, hlogs⟩ := discoverLoop_trace env
    (entries ref (discoverSetup ref (env.GetCronSchedules w).err (fetched env w)))
    (discoverSetup ref (env.GetCronSchedules w).err (fetched env w))
  have he : issued (discoverSetup ref (env.GetCronSchedules w).err (fetched env w))
      (discoverLoop env
        (entries ref (discoverSetup ref (env.GetCronSchedules w).err (fetched env w)))
        (discoverSetup ref (env.GetCronSchedules w).err (fetched env w))) = evs :=
    issued_of_append _ _ _ ht
  have he' : evs' = evs := by
    rw [← he]
    exact (issued_of_append _ _ _ ht').symm
  subst he'
  rw [he] at hc ⊢
  obtain ⟨-, h2, -, -, h5⟩ := hcalls c hc
  rw [hheap] at h5
  refine ⟨h2, h5, ?_, ?_, ?_⟩
  · intro heng
    obtain ⟨evs2, ht2, hmono, -⟩ := discoverLoop_handles env
      (entries ref (discoverSetup ref (env.GetCronSchedules w).err (fetched env w)))
      (discoverSetup ref (env.GetCronSchedules w).err (fetched env w)) heng
    have he2 : evs2 = evs' := by
      rw [← he]
      exact (issued_of_append _ _ _ ht2).symm
    subst he2
    rw [h5]
    exact (hmono c hc).1 herr
  · rw [discoverLoop_Schedules, hSched]
  · rw [hlogs]

/-- C6 as amended, at `sampleWorld` with an engine that rejects every
expression: the one call, for `b`, came back with an error. -/
theorem discoverCronContainers_registration_error_kept_witness :
    ∃ w', discoverCronContainers
        (sampleEnv (some SchedulesRef.registry) false resolveAll (fun _ => false) startOk)
        sampleWorld = Except.ok w' ∧
      w'.heap 1 = { sampleWorld.heap 1 with CronID := 0 } ∧
      w'.Schedules = (clearCron sampleWorld).Schedules :=
  ⟨_, rfl,
    (discoverCronContainers_registration_error_kept
      (sampleEnv (some SchedulesRef.registry) false resolveAll (fun _ => false) startOk)
      sampleWorld _ rfl (by decide)
      { schedule := 1, spec := "@daily", cmd := resolveAll "b", entryID := 0, err := true }
      (by decide) rfl).2.1,
    (discoverCronContainers_registration_error_kept
      (sampleEnv (some SchedulesRef.registry) false resolveAll (fun _ => false) startOk)
      sampleWorld _ rfl (by decide)
      { schedule := 1, spec := "@daily", cmd := resolveAll "b", entryID := 0, err := true }
      (by decide) rfl).2.2.2.1⟩

/-- C7: let `X` be a registry entry that is flagged `ToCleanup`, holds a
handle (`CronID > 0`) and also appears in the fetched set.  The run completes;
its calls split in two parts, the first of which holds the `cr.Remove` call
for `X` with its stored `CronID` and no `cr.AddFunc` call, while the second
holds no `cr.Remove` call (the cancel comes before any registration);
afterwards no registry entry points to `X`, no `cr.AddFunc` call was issued
for `X`, and `X` itself was not written. -/
theorem discoverCronContainers_reappearance (env : Env) (w : World) (k : String) (X : Ptr)
    (hreg : (k, X) ∈ (fetched env w).Schedules)
    (hflag : ((fetched env w).heap X).ToCleanup = true)
    (hid : 0 < ((fetched env w).heap X).CronID)
    (hin : X ∈ (fetchedEntries env w).map Prod.snd) :
    ∃ w', discoverCronContainers env w = Except.ok w' ∧
      (∃ first second, issued w w' = first ++ second ∧
        (X, ((fetched env w).heap X).CronID) ∈ removeCalls first ∧
        addFuncCalls first = [] ∧ removeCalls second = []) ∧
      (∀ k', (k', X) ∉ w'.Schedules) ∧
      (∀ c ∈ addFuncCalls (issued w w'), c.schedule ≠ X) ∧
      w'.heap X = (fetched env w).heap X := by
  have hsched : (env.GetCronSchedules w).sched ≠ none := by
    intro hnone
    unfold fetchedEntries at hin
    rw [hnone] at hin
    simp at hin
  obtain ⟨ref, hs⟩ := Option.ne_none_iff_exists'.mp hsched
  refine ⟨_, discoverCronContainers_eq env w ref hs, ?_⟩
  obtain ⟨hheap, hSched, -⟩ :=
    discoverSetup_spec ref (env.GetCronSchedules w).err (fetched env w)
  obtain ⟨pre, hiss, hadd, hrem, -⟩ :=
    discoverBody_issued env ref (env.GetCronSchedules w).err (fetched env w)
  have hiss' : issued w (discoverBody env ref (env.GetCronSchedules w).err (fetched env w)) =
      pre ++ issued (discoverSetup ref (env.GetCronSchedules w).err (fetched env w))
        (discoverBody env ref (env.GetCronSchedules w).err (fetched env w)) := hiss
  have hid' : 0 < ((discoverSetup ref (env.GetCronSchedules w).err (fetched env w)).heap X).CronID := by
    rw [hheap]
    exact hid
  obtain ⟨evs, ht, hno, hX⟩ := discoverLoop_bound env
    (entries ref (discoverSetup ref (env.GetCronSchedules w).err (fetched env w)))
    (discoverSetup ref (env.GetCronSchedules w).err (fetched env w)) X hid'
  obtain ⟨evs', ht', hnorem, -⟩ := discoverLoop_trace env
    (entries ref (discoverSetup ref (env.GetCronSchedules w).err (fetched env w)))
    (discoverSetup ref (env.GetCronSchedules w).err (fetched env w))
  have he : issued (discoverSetup ref (env.GetCronSchedules w).err (fetched env w))
      (discoverBody env ref (env.GetCronSchedules w).err (fetched env w)) = evs :=
    issued_of_append _ _ _ ht
  have he' : evs' = evs := by
    rw [← he]
    exact (issued_of_append _ _ _ ht').symm
  subst he'
  rw [hiss', he]
  refine ⟨⟨pre, evs', rfl, ?_, hadd, hnorem⟩, ?_, ?_, ?_⟩
  · rw [hrem, removeCalls_clearCronTrace]
    exact List.mem_map.mpr ⟨(k, X), List.mem_filter.mpr ⟨hreg, hflag⟩, rfl⟩
  · intro k' hk'
    unfold discoverBody at hk'
    rw [discoverLoop_Schedules, hSched, clearCron_Schedules_eq] at hk'
    have hmem := (List.mem_filter.mp hk').2
    have hin' := (List.mem_filter.mp hk').1
    have : k' ∈ ((fetched env w).Schedules.filter
        (fun x => ((fetched env w).heap x.2).ToCleanup)).map Prod.fst :=
      List.mem_map.mpr ⟨(k', X), List.mem_filter.mpr ⟨hin', hflag⟩, rfl⟩
    simp [this] at hmem
  · intro c hc
    rw [addFuncCalls_append, hadd, List.nil_append] at hc
    exact hno c hc
  · unfold discoverBody
    rw [hX, hheap]

/-- C7 at `sampleWorld`: `a` (pointer 0) is flagged, holds handle 7 and is in
the fetched set, which is the registry itself. -/
theorem discoverCronContainers_reappearance_witness :
    ∃ w', discoverCronContainers
        happyEnv
        sampleWorld = Except.ok w' ∧
      (∃ first second, issued sampleWorld w' = first ++ second ∧
        ((0 : Ptr), (7 : Int)) ∈ removeCalls first ∧
        addFuncCalls first = [] ∧ removeCalls second = []) ∧
      (∀ k', (k', 0) ∉ w'.Schedules) ∧
      (∀ c ∈ addFuncCalls (issued sampleWorld w'), c.schedule ≠ 0) ∧
      w'.heap 0 = sampleWorld.heap 0 :=
  discoverCronContainers_reappearance
    happyEnv
    sampleWorld "a" 0 (by decide) (by decide) (by decide) (by decide)

/-- C8: take a completed run with an engine that keeps `CronEngine`, a
registry with distinct keys and a fetched set of distinct schedules.  Every
schedule of the fetched set that is unbound (`CronID = 0`) and not flagged
gets a `cr.AddFunc` call.  And for every `cr.AddFunc` call of the run whose
callback was resolved and which returned no error: it is for a schedule of
the fetched set, it is the only call for that schedule, it was given that
schedule's `CronExpression`, afterwards the schedule is as before but for
`CronID`, which is the entry ID the call returned, and no call for another
schedule returned that entry ID. -/
theorem discoverCronContainers_binds_handle (env : Env) (w w' : World)
    (heng : CronEngine env)
    (hrun : discoverCronContainers env w = Except.ok w')
    (hkeys : ((fetched env w).Schedules.map Prod.fst).Nodup)
    (hptrs : ((fetchedEntries env w).map Prod.snd).Nodup) :
    (∀ e ∈ fetchedEntries env w,
      ((fetched env w).heap e.2).CronID = 0 → ((fetched env w).heap e.2).ToCleanup = false →
        ∃ c ∈ addFuncCalls (issued w w'), c.schedule = e.2) ∧
    (∀ c ∈ addFuncCalls (issued w w'), c.cmd.isSome = true → c.err = false →
      c.schedule ∈ (fetchedEntries env w).map Prod.snd ∧
      (addFuncCalls (issued w w')).filter (fun c' => c'.schedule = c.schedule) = [c] ∧
      c.spec = ((fetched env w).heap c.schedule).CronExpression ∧
      w'.heap c.schedule = { (fetched env w).heap c.schedule with CronID := c.entryID } ∧
      ∀ c' ∈ addFuncCalls (issued w w'), c'.entryID = c.entryID → c'.schedule = c.schedule) := by
  obtain ⟨ref, hs, rfl⟩ := discoverCronContainers_ok env w w' hrun
  rw [fetchedEntries_eq env w ref hs] at hptrs ⊢
  obtain ⟨hheap, hSched, -⟩ :=
    discoverSetup_spec ref (env.GetCronSchedules w).err (fetched env w)
  obtain ⟨pre, hiss, hadd, -, -⟩ :=
    discoverBody_issued env ref (env.GetCronSchedules w).err (fetched env w)
  have hiss' : issued w (discoverBody env ref (env.GetCronSchedules w).err (fetched env w)) =
      pre ++ issued (discoverSetup ref (env.GetCronSchedules w).err (fetched env w))
        (discoverBody env ref (env.GetCronSchedules w).err (fetched env w)) := hiss
  have hsub := entries_clearCron_sublist ref (fetched env w)
  have hnd : ((entries ref (discoverSetup ref (env.GetCronSchedules w).err
      (fetched env w))).map Prod.snd).Nodup := by
    rw [entries_discoverSetup]
    exact hptrs.sublist (hsub.map _)
  obtain ⟨evs, ht, hcalls⟩ := discoverLoop_calls env _
    (discoverSetup ref (env.GetCronSchedules w).err (fetched env w)) hnd
  obtain ⟨evs2, ht2, -, huniq⟩ := discoverLoop_handles env
    (entries ref (discoverSetup ref (env.GetCronSchedules w).err (fetched env w)))
    (discoverSetup ref (env.GetCronSchedules w).err (fetched env w)) heng
  have he : issued (discoverSetup ref (env.GetCronSchedules w).err (fetched env w))
      (discoverBody env ref (env.GetCronSchedules w).err (fetched env w)) = evs :=
    issued_of_append _ _ _ ht
  have he2 : evs2 = evs := by
    rw [← he]
    exact (issued_of_append _ _ _ ht2).symm
  subst he2
  rw [hiss', he, addFuncCalls_append, hadd, List.nil_append]
  constructor
  · intro e he1 hzero hclean
    have hin : e.2 ∈ (entries ref (discoverSetup ref (env.GetCronSchedules w).err
        (fetched env w))).map Prod.snd := by
      rw [entries_discoverSetup]
      refine List.mem_map.mpr ⟨e, ?_, rfl⟩
      cases ref with
      | registry =>
        show e ∈ (clearCron (fetched env w)).Schedules
        rw [clearCron_Schedules _ hkeys]
        exact List.mem_filter.mpr ⟨he1, by simp [hclean]⟩
      | other es => exact he1
    have hunbound : ¬ 0 < ((discoverSetup ref (env.GetCronSchedules w).err
        (fetched env w)).heap e.2).CronID := by
      rw [hheap, hzero]
      decide
    obtain ⟨evs3, ht3, hex⟩ := discoverLoop_registers env _ _ e.2 hin hunbound
    have he3 : evs3 = evs2 := by
      rw [← he]
      exact (issued_of_append _ _ _ ht3).symm
    subst he3
    exact hex
  · intro c hc _ hok
    obtain ⟨h1, h2, h3, -, h5⟩ := hcalls c hc
    rw [hheap] at h3 h5
    rw [entries_discoverSetup] at h1
    refine ⟨(hsub.map Prod.snd).subset h1, h2, h3, h5, ?_⟩
    exact huniq c hc hok

/-- C8 at `sampleWorld`: the unbound `b` (pointer 1) is resolved and
registered, and the engine returns entry ID 8. -/
theorem discoverCronContainers_binds_handle_witness :
    ∃ w', discoverCronContainers
        happyEnv
        sampleWorld = Except.ok w' ∧
      addFuncCalls (issued sampleWorld w') =
        [{ schedule := 1, spec := "@daily", cmd := resolveAll "b", entryID := 8, err := false }] ∧
      w'.heap 1 = { sampleWorld.heap 1 with CronID := 8 } :=
  ⟨_, rfl, by decide,
    ((discoverCronContainers_binds_handle
      happyEnv
      sampleWorld _ (sampleEnv_CronEngine _ _ _ _ _) rfl (by decide) (by decide)).2
      { schedule := 1, spec := "@daily", cmd := resolveAll "b", entryID := 8, err := false }
      (by decide) rfl rfl).2.2.2.1⟩

/-- C9, at a failing input: `c.StartContainerByID` returns a nil container
together with an error.  The error branch of the callback reads `Id` of the
returned container, so the callback panics instead of returning. -/
theorem cronFunction_failed_start_panics :
    cronFunction
      (sampleEnv (some SchedulesRef.registry) false resolveAll (fun _ => true) startFails)
      { Id := "1i7", Name := "worker", Uuid := "b" } sampleWorld =
      Except.error Panic.nilDereference :=
  rfl

/-- C10, at a failing input: `s.GetCronSchedules()` returns a nil pointer
together with an error.  The pointer is dereferenced before the error is
looked at, so the run panics. -/
theorem discoverCronContainers_nil_schedules_panics :
    discoverCronContainers (sampleEnv none true resolveAll (fun _ => true) startOk) sampleWorld =
      Except.error Panic.nilDereference :=
  rfl

end RancherCron
